import Mathlib

/-!
Verification of the asynchronous delivery pipeline (`asyncBuffer`) of the
onelog structured-logging library, shallowly embedded from `src/async.go`.

The embedding is a sequential semantics of the pipeline: producers, the
consumer and the resize task are interleaved at operation granularity, so a
compare-and-swap on a cursor always succeeds (there is no concurrent rival
inside a single modelled operation), sleeps are no-ops, and the wall-clock
timeout of the blocking write path is taken never to fire (the adversarial
case for termination, which is then bounded by the retry ceiling alone).
Machine integers (`int`, `int64`) are modelled as `Int` where signedness and
arithmetic shifts matter (`roundUpPowerOfTwo`) and as `Nat` for the
monotonically increasing cursors and counters, which the code never lets go
negative.  The sink (`io.Writer`) is modelled by a plan `Nat → Bool` giving
the success of the n-th `Write` call, together with a ghost log of the
`(cursor, record)` pairs successfully written, in call order.
-/

namespace Onelog

/-- A rendered log record: one `[]byte` payload, modelled as a byte list. -/
abbrev Rec := List Nat

/-- The only producer-facing error of the pipeline (`ErrBufferFull`). -/
inductive GoError where
  | bufferFull
deriving DecidableEq

/-- BackpressureMode from `src/async.go`: Drop or Block. -/
inductive BackpressureMode where
  | drop
  | block
deriving DecidableEq

/-- The `asyncBuffer` state from `src/async.go`.  `sinkPlan`, `sinkCalls` and
`sinkLog` model the attached `io.Writer`: `sinkPlan n` says whether the n-th
`Write` call succeeds, `sinkCalls` counts calls made so far, and `sinkLog`
records the `(cursor, record)` pairs successfully delivered, in order.
`stopped` models the closed `stopCh`.  The shard locks and the resize lock
have no effect in the sequential semantics and carry no data, so they are
not represented. -/
structure AsyncBuffer where
  size : Nat
  mask : Nat
  readIndex : Nat
  writeIndex : Nat
  buffer : List (Option Rec)
  backpressureMode : BackpressureMode
  utilization : Nat
  dropCount : Nat
  dynamicResize : Bool
  resizeThreshold : Nat
  flushInterval : Nat
  stopped : Bool
  sinkPlan : Nat → Bool
  sinkCalls : Nat
  sinkLog : List (Nat × Rec)

/-- roundUpPowerOfTwo from `src/async.go`, on Go `int` semantics: `n--`,
five or-assignments with arithmetic right shifts, `n++`.  Go's `>>` on a
signed `int` is an arithmetic shift and `|` is two's-complement or, which
`Int.shiftRight` (via `>>>`) and `Int.lor` implement exactly. -/
def roundUpPowerOfTwo (n : Int) : Int :=
  let n := n - 1
  let n := Int.lor n (n >>> (1 : Nat))
  let n := Int.lor n (n >>> (2 : Nat))
  let n := Int.lor n (n >>> (4 : Nat))
  let n := Int.lor n (n >>> (8 : Nat))
  let n := Int.lor n (n >>> (16 : Nat))
  n + 1

/-- newAsyncBuffer from `src/async.go`: round the size up to a power of two
when it is non-positive or not a power of two (`size&(size-1) != 0`), then
build the state with both cursors at zero, Drop mode, dynamic resize on,
threshold 75 and flush interval 100ms.  `plan` is the attached writer.
(Go's `mask` field is `int64(size-1)`, which is `-1` when `size` ends up
`0`; no claim exercises the ring at capacity zero, where the Go code would
index out of range, and the model truncates that mask to `0`.) -/
def newAsyncBuffer (size : Int) (plan : Nat → Bool) : AsyncBuffer :=
  let size := if size ≤ 0 ∨ Int.land size (size - 1) ≠ 0 then roundUpPowerOfTwo size else size
  { size := size.toNat
    mask := size.toNat - 1
    readIndex := 0
    writeIndex := 0
    buffer := List.replicate size.toNat none
    backpressureMode := .drop
    utilization := 0
    dropCount := 0
    dynamicResize := true
    resizeThreshold := 75
    flushInterval := 100
    stopped := false
    sinkPlan := plan
    sinkCalls := 0
    sinkLog := [] }

/-- The successful-admission tail of `write`/`writeWithRetry`: copy the
record into slot `writeIndex & mask`, advance the write cursor, and store
the recomputed utilization `usage*100/size`. -/
def writeSucceed (b : AsyncBuffer) (p : Rec) (writeIndex usage : Nat) : AsyncBuffer :=
  { b with
    buffer := b.buffer.set (writeIndex &&& b.mask) (some p)
    writeIndex := writeIndex + 1
    utilization := usage * 100 / b.size }

/-- The retry loop of `writeWithRetry` from `src/async.go`.  Each iteration
re-reads the cursors (unchanged in the sequential semantics), drops
immediately in Drop mode when full, and in Block mode increments `retries`
and gives up with `ErrBufferFull` once `retries > maxRetries` (`maxRetries`
is 100 in the source; the 5-second wall-clock timeout is modelled as never
having fired, the worst case for termination).  When not full, the CAS
succeeds and the record is admitted. -/
def writeWithRetryLoop (b : AsyncBuffer) (p : Rec) (retries : Nat) : AsyncBuffer × Option GoError :=
  let writeIndex := b.writeIndex
  let nextWriteIndex := writeIndex + 1
  let usage := nextWriteIndex - b.readIndex
  if _hfull : b.size < usage then
    if b.backpressureMode = .drop then
      ({ b with dropCount := b.dropCount + 1 }, some .bufferFull)
    else if _hceil : 100 < retries + 1 then
      ({ b with dropCount := b.dropCount + 1 }, some .bufferFull)
    else
      writeWithRetryLoop b p (retries + 1)
  else
    (writeSucceed b p writeIndex usage, none)
termination_by 101 - retries
decreasing_by omega

/-- writeWithRetry from `src/async.go`, entered with `retries = 0`. -/
def writeWithRetry (b : AsyncBuffer) (p : Rec) : AsyncBuffer × Option GoError :=
  writeWithRetryLoop b p 0

/-- write from `src/async.go`.  Fast path: read the cursors, compute
`usage = nextWriteIndex - readIndex`; if `usage <= size` the CAS succeeds
(sequential semantics) and the record is admitted; otherwise Drop mode
increments the drop counter and returns `ErrBufferFull` at once, and Block
mode falls through to `writeWithRetry`.  The `go maybeResize()` trigger is
fire-and-forget in the source and is modelled as a separate interleaving
step (see `Reachable`), so `write` itself never resizes. -/
def write (b : AsyncBuffer) (p : Rec) : AsyncBuffer × Option GoError :=
  let writeIndex := b.writeIndex
  let nextWriteIndex := writeIndex + 1
  let readIndex := b.readIndex
  let usage := nextWriteIndex - readIndex
  if usage ≤ b.size then
    (writeSucceed b p writeIndex usage, none)
  else if b.backpressureMode = .drop then
    ({ b with dropCount := b.dropCount + 1 }, some .bufferFull)
  else
    writeWithRetry b p

/-- The batch end of one flush wake: `batchSize = min(writeIndex-readIndex,
100)`, `endIndex = readIndex + batchSize`, clamped to `writeIndex` (the
clamp is redundant, as in the source). -/
def flushEnd (b : AsyncBuffer) : Nat :=
  min (b.readIndex + min (b.writeIndex - b.readIndex) 100) b.writeIndex

/-- The batch loop of `flush`: for each cursor `i` in order, read slot
`i & mask`; skip `nil` entries; otherwise call the sink (consuming one
entry of the plan): on success clear the slot and keep going, on error stop
the whole batch (`break` in the source).  Returns the updated buffer, the
updated sink-call count and the updated sink log. -/
def flushLoop (plan : Nat → Bool) (mask : Nat) :
    List Nat → List (Option Rec) → Nat → List (Nat × Rec) →
    List (Option Rec) × Nat × List (Nat × Rec)
  | [], buf, calls, log => (buf, calls, log)
  | i :: rest, buf, calls, log =>
    match buf.getD (i &&& mask) none with
    | none => flushLoop plan mask rest buf calls log
    | some entry =>
      if plan calls then
        flushLoop plan mask rest (buf.set (i &&& mask) none) (calls + 1) (log ++ [(i, entry)])
      else
        (buf, calls + 1, log)

/-- flush from `src/async.go`: return immediately when nothing is pending;
otherwise process the batch `[readIndex, flushEnd)` through `flushLoop` and
then store `readIndex := endIndex` unconditionally — also when the batch
stopped early on a sink error. -/
def flush (b : AsyncBuffer) : AsyncBuffer :=
  if b.writeIndex ≤ b.readIndex then b
  else
    let endIndex := flushEnd b
    let out := flushLoop b.sinkPlan b.mask
      (List.range' b.readIndex (endIndex - b.readIndex)) b.buffer b.sinkCalls b.sinkLog
    { b with
      buffer := out.1
      sinkCalls := out.2.1
      sinkLog := out.2.2
      readIndex := endIndex }

/-- The copy loop of `maybeResize`: for each live cursor `i` in increasing
order, `newBuffer[i & newMask] = oldBuffer[i & oldMask]`. -/
def copyEntries (oldBuf : List (Option Rec)) (oldMask newMask : Nat) :
    List Nat → List (Option Rec) → List (Option Rec)
  | [], newBuf => newBuf
  | i :: rest, newBuf =>
    copyEntries oldBuf oldMask newMask rest
      (newBuf.set (i &&& newMask) (oldBuf.getD (i &&& oldMask) none))

/-- maybeResize from `src/async.go`: no-op unless the stored utilization
exceeds the threshold (the source checks twice around the lock; in the
sequential semantics the value is unchanged in between, so one check is
shown); no-op when `2*size` would exceed the absolute cap of `1024*1024`
slots; otherwise double the capacity, copy the live records
`[readIndex, writeIndex)` into the new buffer and swap buffer, size and
mask.  The cursors are untouched. -/
def maybeResize (b : AsyncBuffer) : AsyncBuffer :=
  if b.utilization ≤ b.resizeThreshold then b
  else
    let newSize := b.size * 2
    if 1024 * 1024 < newSize then b
    else
      let newMask := newSize - 1
      let newBuffer := copyEntries b.buffer b.mask newMask
        (List.range' b.readIndex (b.writeIndex - b.readIndex))
        (List.replicate newSize none)
      { b with buffer := newBuffer, size := newSize, mask := newMask }

/-- close from `src/async.go`: closing `stopCh` makes the worker run one
final `flush` and exit, and `close` blocks on the wait group until that has
happened; the post-close state is the flushed state with the stop signal
recorded. -/
def close (b : AsyncBuffer) : AsyncBuffer :=
  { flush b with stopped := true }

/-- SetBackpressureMode from `src/async.go`. -/
def setBackpressureMode (b : AsyncBuffer) (mode : BackpressureMode) : AsyncBuffer :=
  { b with backpressureMode := mode }

/-- SetDynamicResize from `src/async.go`. -/
def setDynamicResize (b : AsyncBuffer) (enabled : Bool) : AsyncBuffer :=
  { b with dynamicResize := enabled }

/-- SetResizeThreshold from `src/async.go`, clamping to `[0, 100]`. -/
def setResizeThreshold (b : AsyncBuffer) (threshold : Int) : AsyncBuffer :=
  let threshold := if threshold < 0 then 0 else threshold
  let threshold := if 100 < threshold then 100 else threshold
  { b with resizeThreshold := threshold.toNat }

/-- SetFlushInterval from `src/async.go`. -/
def setFlushInterval (b : AsyncBuffer) (interval : Nat) : AsyncBuffer :=
  { b with flushInterval := interval }

/-- GetUtilization from `src/async.go`. -/
def getUtilization (b : AsyncBuffer) : Nat :=
  b.utilization

/-- GetDropCount from `src/async.go`. -/
def getDropCount (b : AsyncBuffer) : Nat :=
  b.dropCount

/-- The states of one pipeline reachable by interleaving its operations at
operation granularity: construction, producer writes, consumer flush wakes
(only while the worker runs), fire-and-forget resize attempts, shutdown,
and the setters.  `write` covers both backpressure modes, including the
`writeWithRetry` slow path. -/
inductive Reachable : AsyncBuffer → Prop where
  | init (size : Int) (plan : Nat → Bool) : Reachable (newAsyncBuffer size plan)
  | stepWrite {b : AsyncBuffer} (p : Rec) : Reachable b → Reachable (write b p).1
  | stepFlush {b : AsyncBuffer} : Reachable b → b.stopped = false → Reachable (flush b)
  | stepResize {b : AsyncBuffer} : Reachable b → Reachable (maybeResize b)
  | stepClose {b : AsyncBuffer} : Reachable b → b.stopped = false → Reachable (close b)
  | stepSetMode {b : AsyncBuffer} (m : BackpressureMode) :
      Reachable b → Reachable (setBackpressureMode b m)
  | stepSetDyn {b : AsyncBuffer} (e : Bool) : Reachable b → Reachable (setDynamicResize b e)
  | stepSetThreshold {b : AsyncBuffer} (t : Int) : Reachable b → Reachable (setResizeThreshold b t)
  | stepSetInterval {b : AsyncBuffer} (i : Nat) : Reachable b → Reachable (setFlushInterval b i)

/-- The ring invariant of the spec: the read cursor never passes the write
cursor, and the number of live records never exceeds the capacity. -/
def ringInv (b : AsyncBuffer) : Prop :=
  b.readIndex ≤ b.writeIndex ∧ b.writeIndex - b.readIndex ≤ b.size

/-- Scenario helper: admit a list of records in order. -/
def writeMany (b : AsyncBuffer) (recs : List Rec) : AsyncBuffer :=
  recs.foldl (fun s r => (write s r).1) b

/-- A sink that accepts every write. -/
def planOk : Nat → Bool := fun _ => true

/-- A sink whose every write fails. -/
def planFail : Nat → Bool := fun _ => false

/-- Scenario helper: the records `[0], [1], ..., [k-1]`. -/
def recsUpTo (k : Nat) : List Rec :=
  (List.range k).map (fun i => [i])

/-! ### Characterization of the write path -/

/-- In a static ring state the retry loop of the blocking write path always
returns: when the ring stays full it drops after the retry ceiling, and
otherwise it admits the record. -/
theorem writeWithRetryLoop_full (b : AsyncBuffer) (p : Rec)
    (hfull : b.size < b.writeIndex + 1 - b.readIndex) :
    ∀ fuel retries, 101 - retries ≤ fuel →
      writeWithRetryLoop b p retries = ({ b with dropCount := b.dropCount + 1 }, some .bufferFull) := by
  intro fuel
  induction fuel with
  | zero =>
    intro retries h
    rw [writeWithRetryLoop]
    rw [dif_pos hfull]
    by_cases hmode : b.backpressureMode = .drop
    · rw [if_pos hmode]
    · rw [if_neg hmode, dif_pos (by omega : 100 < retries + 1)]
  | succ n ih =>
    intro retries h
    rw [writeWithRetryLoop]
    rw [dif_pos hfull]
    by_cases hmode : b.backpressureMode = .drop
    · rw [if_pos hmode]
    · rw [if_neg hmode]
      by_cases hceil : 100 < retries + 1
      · rw [dif_pos hceil]
      · rw [dif_neg hceil]
        exact ih (retries + 1) (by omega)

/-- When the ring has room, the retry loop admits the record at once. -/
theorem writeWithRetryLoop_room (b : AsyncBuffer) (p : Rec) (retries : Nat)
    (h : ¬ b.size < b.writeIndex + 1 - b.readIndex) :
    writeWithRetryLoop b p retries
      = (writeSucceed b p b.writeIndex (b.writeIndex + 1 - b.readIndex), none) := by
  rw [writeWithRetryLoop, dif_neg h]

/-- The complete behaviour of `write` in the sequential semantics: the
record is admitted exactly when the admission check passes, and otherwise
the call returns `ErrBufferFull` with the drop counter incremented and the
ring untouched — in Drop mode immediately, in Block mode after the retry
ceiling of the slow path. -/
theorem write_eq (b : AsyncBuffer) (p : Rec) :
    write b p =
      if b.writeIndex + 1 - b.readIndex ≤ b.size then
        (writeSucceed b p b.writeIndex (b.writeIndex + 1 - b.readIndex), none)
      else
        ({ b with dropCount := b.dropCount + 1 }, some .bufferFull) := by
  unfold write
  by_cases h : b.writeIndex + 1 - b.readIndex ≤ b.size
  · rw [if_pos h, if_pos h]
  · rw [if_neg h, if_neg h]
    by_cases hmode : b.backpressureMode = .drop
    · rw [if_pos hmode]
    · rw [if_neg hmode]
      exact writeWithRetryLoop_full b p (by omega) 101 0 (by omega)

/-- A write never touches the sink log, the read cursor, the capacity, the
mask, the stop flag, the sink-call counter or the mode. -/
theorem write_frame (b : AsyncBuffer) (p : Rec) :
    (write b p).1.sinkLog = b.sinkLog ∧ (write b p).1.readIndex = b.readIndex
    ∧ (write b p).1.size = b.size ∧ (write b p).1.mask = b.mask
    ∧ (write b p).1.stopped = b.stopped ∧ (write b p).1.sinkCalls = b.sinkCalls
    ∧ (write b p).1.backpressureMode = b.backpressureMode := by
  rw [write_eq]
  by_cases h : b.writeIndex + 1 - b.readIndex ≤ b.size
  · rw [if_pos h]
    exact ⟨rfl, rfl, rfl, rfl, rfl, rfl, rfl⟩
  · rw [if_neg h]
    exact ⟨rfl, rfl, rfl, rfl, rfl, rfl, rfl⟩

/-! ### C3: Block mode never blocks forever -/

/-- Claim C3: in Block mode every call to `write` terminates (the model
function is total, with the blocking loop bounded by the source's retry
ceiling of 100 and its wall-clock timeout taken as never firing): it either
succeeds once the admission check passes, or gives up, increments the drop
counter and returns `ErrBufferFull` — for every input record and every ring
state, including a permanently full one. -/
theorem write_block_terminates_c3 (b : AsyncBuffer) (p : Rec)
    (hmode : b.backpressureMode = .block) :
    (b.writeIndex + 1 - b.readIndex ≤ b.size →
      write b p = (writeSucceed b p b.writeIndex (b.writeIndex + 1 - b.readIndex), none))
    ∧ (b.size < b.writeIndex + 1 - b.readIndex →
      write b p = ({ b with dropCount := b.dropCount + 1 }, some GoError.bufferFull)) := by
  rw [write_eq]
  constructor
  · intro h
    rw [if_pos h]
  · intro h
    rw [if_neg (by omega)]

/-- Concrete state for the C3 witness: a full ring of capacity 2 in Block
mode. -/
def bFullBlock : AsyncBuffer :=
  setBackpressureMode (writeMany (newAsyncBuffer 2 planOk) [[5], [6]]) BackpressureMode.block

/-- Witness for C3 at a concrete, permanently full Block-mode ring. -/
theorem write_block_terminates_c3_witness :
    write bFullBlock [7] = ({ bFullBlock with dropCount := bFullBlock.dropCount + 1 },
      some GoError.bufferFull) :=
  (write_block_terminates_c3 bFullBlock [7] (by decide)).2 (by decide)

/-! ### C4: Drop mode on a full ring -/

/-- Claim C4: in Drop mode, with exactly `capacity` records in flight, the
next `write` returns `ErrBufferFull` immediately, the drop counter grows by
exactly one, and nothing else of the state — buffer slots, read cursor,
write cursor — changes. -/
theorem write_drop_full_c4 (b : AsyncBuffer) (p : Rec)
    (hmode : b.backpressureMode = .drop)
    (hfull : b.writeIndex = b.readIndex + b.size) :
    write b p = ({ b with dropCount := b.dropCount + 1 }, some GoError.bufferFull)
    ∧ getDropCount (write b p).1 = getDropCount b + 1
    ∧ (write b p).1.buffer = b.buffer
    ∧ (write b p).1.readIndex = b.readIndex
    ∧ (write b p).1.writeIndex = b.writeIndex := by
  have h : write b p = ({ b with dropCount := b.dropCount + 1 }, some GoError.bufferFull) := by
    rw [write_eq, if_neg (by omega)]
  refine ⟨h, ?_, ?_, ?_, ?_⟩ <;> rw [h] <;> rfl

/-- Concrete state for the C4 witness: a full ring of capacity 2 in Drop
mode (the construction default). -/
def bFullDrop : AsyncBuffer :=
  writeMany (newAsyncBuffer 2 planOk) [[5], [6]]

/-- Witness for C4 at a concrete full Drop-mode ring. -/
theorem write_drop_full_c4_witness :
    write bFullDrop [7] = ({ bFullDrop with dropCount := bFullDrop.dropCount + 1 },
      some GoError.bufferFull) :=
  (write_drop_full_c4 bFullDrop [7] (by decide) (by decide)).1

/-! ### C10: writes are still accepted after close -/

/-- Claim C10: `write` consults nothing about the stop signal, so after
`close()` has completed a further `write` on a non-full ring succeeds and
stores the record in its slot exactly as before shutdown; moreover the
outcome of `write` is independent of the `stopped` flag altogether. -/
theorem write_after_close_c10 (b : AsyncBuffer) (p : Rec)
    (hroom : (close b).writeIndex + 1 - (close b).readIndex ≤ (close b).size) :
    (close b).stopped = true
    ∧ write (close b) p
        = (writeSucceed (close b) p (close b).writeIndex
            ((close b).writeIndex + 1 - (close b).readIndex), none)
    ∧ (write (close b) p).1.buffer
        = (close b).buffer.set ((close b).writeIndex &&& (close b).mask) (some p)
    ∧ (∀ c : AsyncBuffer, ∀ q : Rec,
        (write { c with stopped := true } q).2 = (write { c with stopped := false } q).2) := by
  have h := write_eq (close b) p
  rw [if_pos hroom] at h
  refine ⟨rfl, h, by rw [h]; rfl, ?_⟩
  intro c q
  rw [write_eq, write_eq]
  by_cases hc : c.writeIndex + 1 - c.readIndex ≤ c.size
  · rw [if_pos hc, if_pos hc]
  · rw [if_neg hc, if_neg hc]

/-- Concrete state for the C10 witness: one record admitted, then closed
(which drains it), leaving a non-full ring. -/
def bClosed : AsyncBuffer :=
  writeMany (newAsyncBuffer 4 planOk) [[3]]

/-- Witness for C10: after close, a write is still admitted. -/
theorem write_after_close_c10_witness :
    (close bClosed).stopped = true
    ∧ write (close bClosed) [9]
        = (writeSucceed (close bClosed) [9] (close bClosed).writeIndex
            ((close bClosed).writeIndex + 1 - (close bClosed).readIndex), none) := by
  have h := write_after_close_c10 bClosed [9] (by decide)
  exact ⟨h.1, h.2.1⟩

/-! ### C9: utilization after a successful write -/

/-- Counterexample for C9: at capacity 256 the first two successful writes
both report utilization 0 (`1*100/256 = 2*100/256 = 0` in integer
division), so a successful write does not strictly increase the reported
utilization. -/
theorem utilization_not_strict_c9_counterexample :
    (write (newAsyncBuffer 256 planOk) [0]).2 = none
    ∧ (write (write (newAsyncBuffer 256 planOk) [0]).1 [1]).2 = none
    ∧ getUtilization (write (newAsyncBuffer 256 planOk) [0]).1 = 0
    ∧ getUtilization (write (write (newAsyncBuffer 256 planOk) [0]).1 [1]).1 = 0
    ∧ ¬ getUtilization (write (newAsyncBuffer 256 planOk) [0]).1
        < getUtilization (write (write (newAsyncBuffer 256 planOk) [0]).1 [1]).1 := by
  decide

/-- Claim C9 as amended: every successful write stores utilization
`(write_cursor - read_cursor) * 100 / capacity` (recomputed from the
post-write cursors); across successful writes the reported utilization is
non-decreasing, and it strictly increases only when `capacity ≤ 100` — for
larger capacities integer division can keep it unchanged. -/
theorem utilization_after_write_c9 (b : AsyncBuffer) (p : Rec)
    (hr : b.readIndex ≤ b.writeIndex)
    (hroom : b.writeIndex + 1 - b.readIndex ≤ b.size) :
    getUtilization (write b p).1
      = ((write b p).1.writeIndex - (write b p).1.readIndex) * 100 / (write b p).1.size
    ∧ (b.utilization = (b.writeIndex - b.readIndex) * 100 / b.size →
        getUtilization b ≤ getUtilization (write b p).1)
    ∧ (0 < b.size → b.size ≤ 100 →
        b.utilization = (b.writeIndex - b.readIndex) * 100 / b.size →
        getUtilization b < getUtilization (write b p).1) := by
  have h := write_eq b p
  rw [if_pos hroom] at h
  have hfields : (write b p).1.writeIndex = b.writeIndex + 1
      ∧ (write b p).1.readIndex = b.readIndex
      ∧ (write b p).1.size = b.size
      ∧ getUtilization (write b p).1 = (b.writeIndex + 1 - b.readIndex) * 100 / b.size := by
    rw [h]
    exact ⟨rfl, rfl, rfl, rfl⟩
  obtain ⟨hw, hrd, hsz, hu⟩ := hfields
  refine ⟨?_, ?_, ?_⟩
  · rw [hu, hw, hrd, hsz]
  · intro hcur
    rw [hu]
    unfold getUtilization
    rw [hcur]
    exact Nat.div_le_div_right (Nat.mul_le_mul_right _ (by omega))
  · intro hpos hsmall hcur
    rw [hu]
    unfold getUtilization
    rw [hcur]
    set a := b.writeIndex - b.readIndex with ha
    have hstep : b.writeIndex + 1 - b.readIndex = a + 1 := by omega
    rw [hstep]
    calc a * 100 / b.size < a * 100 / b.size + 1 := Nat.lt_succ_self _
      _ = (a * 100 + b.size) / b.size := (Nat.add_div_right _ hpos).symm
      _ ≤ (a + 1) * 100 / b.size := Nat.div_le_div_right (by omega)

/-- Witness for the amended C9 at capacity 8: the first write lifts the
reported utilization from 0 to 12. -/
theorem utilization_after_write_c9_witness :
    getUtilization (newAsyncBuffer 8 planOk)
      < getUtilization (write (newAsyncBuffer 8 planOk) [1]).1 :=
  (utilization_after_write_c9 (newAsyncBuffer 8 planOk) [1] (by decide) (by decide)).2.2
    (by decide) (by decide) (by decide)

/-! ### C5: the ring invariant -/

/-- A write preserves the ring invariant: the admission check is exactly
what keeps `writeIndex - readIndex` within the capacity. -/
theorem ringInv_write (b : AsyncBuffer) (p : Rec) (h : ringInv b) : ringInv (write b p).1 := by
  obtain ⟨h1, h2⟩ := h
  rw [write_eq]
  by_cases hc : b.writeIndex + 1 - b.readIndex ≤ b.size
  · rw [if_pos hc]
    exact ⟨by simp [writeSucceed]; omega, by simp [writeSucceed]; omega⟩
  · rw [if_neg hc]
    exact ⟨h1, h2⟩

/-- A flush preserves the ring invariant: the read cursor moves forward to
the batch end, which never passes the write cursor. -/
theorem ringInv_flush (b : AsyncBuffer) (h : ringInv b) : ringInv (flush b) := by
  obtain ⟨h1, h2⟩ := h
  unfold flush
  by_cases hc : b.writeIndex ≤ b.readIndex
  · rw [if_pos hc]
    exact ⟨h1, h2⟩
  · rw [if_neg hc]
    refine ⟨?_, ?_⟩ <;> simp only [flushEnd] <;> omega

/-- A resize attempt preserves the ring invariant: the cursors are untouched
and the capacity never shrinks. -/
theorem ringInv_resize (b : AsyncBuffer) (h : ringInv b) : ringInv (maybeResize b) := by
  obtain ⟨h1, h2⟩ := h
  unfold maybeResize
  by_cases hu : b.utilization ≤ b.resizeThreshold
  · rw [if_pos hu]
    exact ⟨h1, h2⟩
  · rw [if_neg hu]
    by_cases hcap : 1024 * 1024 < b.size * 2
    · rw [if_pos hcap]
      exact ⟨h1, h2⟩
    · rw [if_neg hcap]
      exact ⟨h1, by simp only []; omega⟩

/-- Claim C5: in every reachable state of the pipeline the read cursor is
at most the write cursor and the number of live records is at most the
capacity; the bound is installed by construction and preserved by writes in
both modes, flushes, resizes, close and the setters. -/
theorem ring_invariant_c5 (b : AsyncBuffer) (h : Reachable b) : ringInv b := by
  induction h with
  | init size plan => exact ⟨Nat.le_refl 0, by simp [newAsyncBuffer]⟩
  | stepWrite p _ ih => exact ringInv_write _ p ih
  | stepFlush _ _ ih => exact ringInv_flush _ ih
  | stepResize _ ih => exact ringInv_resize _ ih
  | stepClose _ _ ih => exact ⟨(ringInv_flush _ ih).1, (ringInv_flush _ ih).2⟩
  | stepSetMode m _ ih => exact ih
  | stepSetDyn e _ ih => exact ih
  | stepSetThreshold t _ ih => exact ih
  | stepSetInterval i _ ih => exact ih

/-- Witness for C5 along a concrete trace: construct, write, flush. -/
theorem ring_invariant_c5_witness :
    ringInv (flush (write (newAsyncBuffer 8 planOk) [1]).1) :=
  ring_invariant_c5 _
    (Reachable.stepFlush (Reachable.stepWrite [1] (Reachable.init 8 planOk)) (by decide))

/-! ### C1 and C2: the flush error path and the final drain -/

set_option maxRecDepth 40000

/-- Evaluation of C1's failing input: capacity 4, two records admitted at
cursors 0 and 1, and a sink whose writes fail.  The claim (and the spec)
say the flush must not advance the read cursor past the failing record's
predecessor, so cursors 0 and 1 are retried on the next wake.  The code
instead breaks out of the batch and then stores `readIndex = endIndex`
unconditionally: nothing reaches the sink, the read cursor jumps to 2, and
a further flush (the next wake) delivers nothing — both records are
abandoned, not retried. -/
theorem flush_error_abandons_batch_c1 :
    (writeMany (newAsyncBuffer 4 planFail) [[1], [2]]).readIndex = 0
    ∧ (writeMany (newAsyncBuffer 4 planFail) [[1], [2]]).writeIndex = 2
    ∧ (flush (writeMany (newAsyncBuffer 4 planFail) [[1], [2]])).sinkLog = []
    ∧ (flush (writeMany (newAsyncBuffer 4 planFail) [[1], [2]])).readIndex = 2
    ∧ (flush (flush (writeMany (newAsyncBuffer 4 planFail) [[1], [2]]))).sinkLog = []
    ∧ (flush (flush (writeMany (newAsyncBuffer 4 planFail) [[1], [2]]))).readIndex = 2 := by
  decide

/-- Evaluation of C2.  With 50 records admitted, `close()` delivers exactly
the 50 records to the sink, in cursor order, as the claim states.  With 101
records admitted (none dropped: the write cursor reaches 101 and the drop
counter stays 0), the final drain of `close()` still applies the per-wake
batch cap of 100 — the worker flushes once and exits — so the sink receives
only 100 writes and the record at cursor 100 is stranded, contradicting the
claim for any admitted count above the cap. -/
theorem close_final_drain_capped_c2 :
    (close (writeMany (newAsyncBuffer 64 planOk) (recsUpTo 50))).sinkLog
      = (List.range 50).map (fun i => (i, [i]))
    ∧ (writeMany (newAsyncBuffer 128 planOk) (recsUpTo 101)).writeIndex = 101
    ∧ (writeMany (newAsyncBuffer 128 planOk) (recsUpTo 101)).dropCount = 0
    ∧ (close (writeMany (newAsyncBuffer 128 planOk) (recsUpTo 101))).sinkLog.length = 100
    ∧ (close (writeMany (newAsyncBuffer 128 planOk) (recsUpTo 101))).readIndex = 100 := by
  decide

/-! ### C8: FIFO delivery order -/

/-- Unfolding `flushLoop` over a nil slot: the cursor is skipped with no
sink call. -/
theorem flushLoop_cons_none (plan : Nat → Bool) (mask i : Nat) (rest : List Nat)
    (buf : List (Option Rec)) (calls : Nat) (log : List (Nat × Rec))
    (h : buf.getD (i &&& mask) none = none) :
    flushLoop plan mask (i :: rest) buf calls log = flushLoop plan mask rest buf calls log := by
  simp only [flushLoop, h]

/-- Unfolding `flushLoop` over a filled slot whose sink write succeeds: the
slot is cleared, the pair is delivered, and the batch continues. -/
theorem flushLoop_cons_some_ok (plan : Nat → Bool) (mask i : Nat) (rest : List Nat)
    (buf : List (Option Rec)) (calls : Nat) (log : List (Nat × Rec)) (entry : Rec)
    (h : buf.getD (i &&& mask) none = some entry) (hp : plan calls = true) :
    flushLoop plan mask (i :: rest) buf calls log
      = flushLoop plan mask rest (buf.set (i &&& mask) none) (calls + 1) (log ++ [(i, entry)]) := by
  simp only [flushLoop, h, hp, if_true]

/-- Unfolding `flushLoop` over a filled slot whose sink write fails: the
batch stops (`break`), the slot is not cleared, nothing is delivered. -/
theorem flushLoop_cons_some_err (plan : Nat → Bool) (mask i : Nat) (rest : List Nat)
    (buf : List (Option Rec)) (calls : Nat) (log : List (Nat × Rec)) (entry : Rec)
    (h : buf.getD (i &&& mask) none = some entry) (hp : plan calls = false) :
    flushLoop plan mask (i :: rest) buf calls log = (buf, calls + 1, log) := by
  simp only [flushLoop, h, hp, Bool.false_eq_true, if_false]

/-- One batch only appends to the sink log, and the cursors of the appended
pairs form a sublist of the batch's cursor list — in particular they appear
in batch order. -/
theorem flushLoop_log_append (plan : Nat → Bool) (mask : Nat) :
    ∀ (cursors : List Nat) (buf : List (Option Rec)) (calls : Nat) (log : List (Nat × Rec)),
      ∃ tail, (flushLoop plan mask cursors buf calls log).2.2 = log ++ tail
        ∧ (tail.map Prod.fst).Sublist cursors := by
  intro cursors
  induction cursors with
  | nil =>
    intro buf calls log
    exact ⟨[], by simp [flushLoop], List.nil_sublist _⟩
  | cons i rest ih =>
    intro buf calls log
    cases hslot : buf.getD (i &&& mask) none with
    | none =>
      obtain ⟨t, ht, hs⟩ := ih buf calls log
      refine ⟨t, ?_, hs.cons i⟩
      rw [flushLoop_cons_none plan mask i rest buf calls log hslot, ht]
    | some entry =>
      cases hp : plan calls with
      | true =>
        obtain ⟨t, ht, hs⟩ :=
          ih (buf.set (i &&& mask) none) (calls + 1) (log ++ [(i, entry)])
        refine ⟨(i, entry) :: t, ?_, ?_⟩
        · rw [flushLoop_cons_some_ok plan mask i rest buf calls log entry hslot hp, ht]
          simp
        · simpa using hs.cons₂ (i, entry).1
      | false =>
        refine ⟨[], ?_, List.nil_sublist _⟩
        rw [flushLoop_cons_some_err plan mask i rest buf calls log entry hslot hp]
        simp

/-- One flush appends to the sink log pairs whose cursors are strictly
increasing and all lie in the batch `[readIndex, flushEnd)`. -/
theorem flush_sinkLog (b : AsyncBuffer) :
    ∃ tail, (flush b).sinkLog = b.sinkLog ++ tail
      ∧ (tail.map Prod.fst).Pairwise (fun a c => a < c)
      ∧ ∀ c ∈ tail.map Prod.fst, b.readIndex ≤ c ∧ c < flushEnd b := by
  unfold flush
  by_cases hc : b.writeIndex ≤ b.readIndex
  · rw [if_pos hc]
    exact ⟨[], by simp, List.Pairwise.nil, by simp⟩
  · rw [if_neg hc]
    obtain ⟨t, ht, hs⟩ := flushLoop_log_append b.sinkPlan b.mask
      (List.range' b.readIndex (flushEnd b - b.readIndex)) b.buffer b.sinkCalls b.sinkLog
    refine ⟨t, ht, ?_, ?_⟩
    · exact (List.pairwise_lt_range' b.readIndex (flushEnd b - b.readIndex)).sublist hs
    · intro c hcmem
      have hmem := hs.subset hcmem
      rw [List.mem_range'_1] at hmem
      have hre : b.readIndex ≤ flushEnd b := by
        simp only [flushEnd]
        omega
      omega

/-- The flush-level ordering invariant: if the sink log so far is strictly
increasing in cursor and fully below the read cursor, the same holds after
one more flush. -/
theorem sinkOrder_flush (b : AsyncBuffer)
    (h1 : (b.sinkLog.map Prod.fst).Pairwise (fun a c => a < c))
    (h2 : ∀ c ∈ b.sinkLog.map Prod.fst, c < b.readIndex) :
    ((flush b).sinkLog.map Prod.fst).Pairwise (fun a c => a < c)
    ∧ ∀ c ∈ (flush b).sinkLog.map Prod.fst, c < (flush b).readIndex := by
  by_cases hc : b.writeIndex ≤ b.readIndex
  · have hfb : flush b = b := by unfold flush; rw [if_pos hc]
    rw [hfb]
    exact ⟨h1, h2⟩
  · have hri : (flush b).readIndex = flushEnd b := by
      unfold flush; rw [if_neg hc]
    obtain ⟨t, ht, hpw, hbound⟩ := flush_sinkLog b
    rw [ht, List.map_append, hri]
    constructor
    · rw [List.pairwise_append]
      refine ⟨h1, hpw, ?_⟩
      intro a ha c hcmem
      have h2a := h2 a ha
      have hb := (hbound c hcmem).1
      omega
    · intro c hcmem
      have hre : b.readIndex ≤ flushEnd b := by simp only [flushEnd]; omega
      rcases List.mem_append.mp hcmem with hold | hnew
      · have := h2 c hold
        omega
      · exact (hbound c hnew).2

/-- A resize attempt never touches the sink log or the cursors. -/
theorem maybeResize_frame (b : AsyncBuffer) :
    (maybeResize b).sinkLog = b.sinkLog ∧ (maybeResize b).readIndex = b.readIndex
    ∧ (maybeResize b).writeIndex = b.writeIndex := by
  unfold maybeResize
  by_cases hu : b.utilization ≤ b.resizeThreshold
  · rw [if_pos hu]
    exact ⟨rfl, rfl, rfl⟩
  · rw [if_neg hu]
    by_cases hcap : 1024 * 1024 < b.size * 2
    · rw [if_pos hcap]
      exact ⟨rfl, rfl, rfl⟩
    · rw [if_neg hcap]
      exact ⟨rfl, rfl, rfl⟩

/-- In every reachable state the sink log is strictly increasing in cursor
and entirely below the read cursor. -/
theorem sinkOrder_reachable (b : AsyncBuffer) (h : Reachable b) :
    (b.sinkLog.map Prod.fst).Pairwise (fun a c => a < c)
    ∧ ∀ c ∈ b.sinkLog.map Prod.fst, c < b.readIndex := by
  induction h with
  | init size plan =>
    exact ⟨by simp [newAsyncBuffer], by simp [newAsyncBuffer]⟩
  | stepWrite p _ ih =>
    obtain ⟨hlog, hrd, _⟩ := write_frame _ p
    rw [hlog, hrd]
    exact ih
  | stepFlush _ _ ih => exact sinkOrder_flush _ ih.1 ih.2
  | stepResize _ ih =>
    obtain ⟨hlog, hrd, _⟩ := maybeResize_frame _
    rw [hlog, hrd]
    exact ih
  | stepClose _ _ ih => exact sinkOrder_flush _ ih.1 ih.2
  | stepSetMode m _ ih => exact ih
  | stepSetDyn e _ ih => exact ih
  | stepSetThreshold t _ ih => exact ih
  | stepSetInterval i _ ih => exact ih

/-- Reading a list at an index other than the one just set. -/
theorem getD_set_ne (l : List (Option Rec)) (a c : Nat) (v : Option Rec) (h : a ≠ c) :
    (l.set a v).getD c none = l.getD c none := by
  rw [List.getD_eq_getElem?_getD, List.getD_eq_getElem?_getD, List.getElem?_set_ne h]

/-- Reading a list at an in-bounds index just set. -/
theorem getD_set_self (l : List (Option Rec)) (a : Nat) (v : Option Rec) (h : a < l.length) :
    (l.set a v).getD a none = v := by
  rw [List.getD_eq_getElem?_getD, List.getElem?_set_self h]
  rfl

/-- When every sink write succeeds and the batch's cursors hit pairwise
distinct slots that are all filled, the batch delivers exactly the records
at those cursors, in batch order. -/
theorem flushLoop_complete (plan : Nat → Bool) (mask : Nat) (hplan : ∀ n, plan n = true) :
    ∀ (cursors : List Nat) (buf : List (Option Rec)) (calls : Nat) (log : List (Nat × Rec)),
      cursors.Pairwise (fun i j => i &&& mask ≠ j &&& mask) →
      (∀ i ∈ cursors, buf.getD (i &&& mask) none ≠ none) →
      (flushLoop plan mask cursors buf calls log).2.2 =
        log ++ cursors.map (fun i => (i, (buf.getD (i &&& mask) none).getD [])) := by
  intro cursors
  induction cursors with
  | nil =>
    intro buf calls log _ _
    simp [flushLoop]
  | cons i rest ih =>
    intro buf calls log hpw hfill
    have hne := List.pairwise_cons.mp hpw
    cases hslot : buf.getD (i &&& mask) none with
    | none => exact absurd hslot (hfill i (List.mem_cons_self i rest))
    | some entry =>
      rw [flushLoop_cons_some_ok plan mask i rest buf calls log entry hslot (hplan calls)]
      have hrest : ∀ j ∈ rest, (buf.set (i &&& mask) none).getD (j &&& mask) none
          = buf.getD (j &&& mask) none := by
        intro j hj
        exact getD_set_ne buf (i &&& mask) (j &&& mask) none (hne.1 j hj)
      rw [ih (buf.set (i &&& mask) none) (calls + 1) (log ++ [(i, entry)]) hne.2
        (fun j hj => by rw [hrest j hj]; exact hfill j (List.mem_cons_of_mem i hj))]
      rw [List.map_congr_left (fun j hj => by rw [hrest j hj])]
      rw [List.getD_eq_getElem?_getD] at hslot
      simp [hslot]

/-- Distinct cursors less than one capacity apart occupy distinct slots of a
power-of-two ring. -/
theorem and_mask_ne {e i j : Nat} (hij : i < j) (hwin : j - i < 2 ^ e) :
    i &&& (2 ^ e - 1) ≠ j &&& (2 ^ e - 1) := by
  rw [Nat.and_pow_two_sub_one_eq_mod, Nat.and_pow_two_sub_one_eq_mod]
  intro hmod
  have hdvd : 2 ^ e ∣ j - i := (Nat.modEq_iff_dvd' (Nat.le_of_lt hij)).1 hmod
  have := Nat.le_of_dvd (by omega) hdvd
  omega

/-- Claim C8: FIFO delivery.  (1) In every reachable state the sink has
received records in strictly increasing cursor order — concatenating
successive flushes, and interleaving writes, resizes and shutdown, never
reorders records.  (2) Any single flush only appends, with strictly
increasing cursors confined to its batch `[readIndex, flushEnd)`.  (3) When
no sink error occurs and the batch's (pairwise distinct) slots are filled,
the flush delivers exactly the records at cursors `[readIndex, flushEnd)`,
in cursor order. -/
theorem delivery_order_c8 :
    (∀ b : AsyncBuffer, Reachable b →
      (b.sinkLog.map Prod.fst).Pairwise (fun a c => a < c))
    ∧ (∀ b : AsyncBuffer, ∃ tail, (flush b).sinkLog = b.sinkLog ++ tail
        ∧ (tail.map Prod.fst).Pairwise (fun a c => a < c)
        ∧ ∀ c ∈ tail.map Prod.fst, b.readIndex ≤ c ∧ c < flushEnd b)
    ∧ (∀ (b : AsyncBuffer) (e : Nat), b.readIndex < b.writeIndex →
        (∀ n, b.sinkPlan n = true) →
        b.size = 2 ^ e → b.mask = b.size - 1 → b.writeIndex - b.readIndex ≤ b.size →
        (∀ i, b.readIndex ≤ i → i < flushEnd b → b.buffer.getD (i &&& b.mask) none ≠ none) →
        (flush b).sinkLog = b.sinkLog
          ++ (List.range' b.readIndex (flushEnd b - b.readIndex)).map
            (fun i => (i, (b.buffer.getD (i &&& b.mask) none).getD []))) := by
  refine ⟨fun b h => (sinkOrder_reachable b h).1, fun b => flush_sinkLog b, ?_⟩
  intro b e hrw hplan hsize hmask hcap hfill
  have hre : b.readIndex ≤ flushEnd b ∧ flushEnd b ≤ b.writeIndex
      ∧ flushEnd b - b.readIndex ≤ b.size := by
    refine ⟨?_, ?_, ?_⟩ <;> simp only [flushEnd] <;> omega
  have hnontrivial : ¬ b.writeIndex ≤ b.readIndex := by omega
  have hflush : (flush b).sinkLog
      = (flushLoop b.sinkPlan b.mask
          (List.range' b.readIndex (flushEnd b - b.readIndex)) b.buffer b.sinkCalls
          b.sinkLog).2.2 := by
    unfold flush
    rw [if_neg hnontrivial]
  rw [hflush]
  apply flushLoop_complete b.sinkPlan b.mask hplan
  · refine (List.pairwise_lt_range' b.readIndex (flushEnd b - b.readIndex)).imp_of_mem ?_
    intro x y hx hy hxy
    rw [List.mem_range'_1] at hx hy
    rw [hmask, hsize]
    exact and_mask_ne hxy (by omega)
  · intro i hi
    rw [List.mem_range'_1] at hi
    exact hfill i (by omega) (by omega)

/-- Witness for C8 at a concrete state: two records admitted at cursors 0
and 1 into a ring of capacity 4 with an error-free sink; the flush delivers
them in cursor order. -/
theorem delivery_order_c8_witness :
    ((flush (writeMany (newAsyncBuffer 4 planOk) [[1], [2]])).sinkLog.map Prod.fst).Pairwise
      (fun a c => a < c)
    ∧ (flush (writeMany (newAsyncBuffer 4 planOk) [[1], [2]])).sinkLog
        = (writeMany (newAsyncBuffer 4 planOk) [[1], [2]]).sinkLog
          ++ (List.range' (writeMany (newAsyncBuffer 4 planOk) [[1], [2]]).readIndex
              (flushEnd (writeMany (newAsyncBuffer 4 planOk) [[1], [2]])
                - (writeMany (newAsyncBuffer 4 planOk) [[1], [2]]).readIndex)).map
            (fun i => (i, ((writeMany (newAsyncBuffer 4 planOk) [[1], [2]]).buffer.getD
              (i &&& (writeMany (newAsyncBuffer 4 planOk) [[1], [2]]).mask) none).getD [])) := by
  constructor
  · exact delivery_order_c8.1 _
      (Reachable.stepFlush
        (Reachable.stepWrite [2] (Reachable.stepWrite [1] (Reachable.init 4 planOk)))
        (by decide))
  · refine delivery_order_c8.2.2 _ 2 (by decide) (fun n => rfl) (by decide) (by decide)
      (by decide) ?_
    intro i h1 h2
    have h2' : i < 2 := h2
    interval_cases i <;> decide

/-! ### C6: resize doubles, caps, and preserves records -/

/-- The copy loop preserves the length of the destination buffer. -/
theorem copyEntries_length (oldBuf : List (Option Rec)) (oldMask newMask : Nat) :
    ∀ (cursors : List Nat) (newBuf : List (Option Rec)),
      (copyEntries oldBuf oldMask newMask cursors newBuf).length = newBuf.length := by
  intro cursors
  induction cursors with
  | nil => intro newBuf; rfl
  | cons i rest ih =>
    intro newBuf
    rw [copyEntries, ih]
    exact List.length_set newBuf _ _

/-- Slots not targeted by the copy loop keep their previous contents. -/
theorem copyEntries_getD_not_mem (oldBuf : List (Option Rec)) (oldMask newMask : Nat) :
    ∀ (cursors : List Nat) (newBuf : List (Option Rec)) (k : Nat),
      (∀ j ∈ cursors, j &&& newMask ≠ k) →
      (copyEntries oldBuf oldMask newMask cursors newBuf).getD k none = newBuf.getD k none := by
  intro cursors
  induction cursors with
  | nil => intro newBuf k _; rfl
  | cons i rest ih =>
    intro newBuf k hk
    rw [copyEntries, ih _ k (fun j hj => hk j (List.mem_cons_of_mem i hj))]
    exact getD_set_ne newBuf _ k _ (hk i (List.mem_cons_self i rest))

/-- When the copy loop's targets are pairwise distinct and in bounds, every
copied cursor's new slot holds exactly its old slot's contents. -/
theorem copyEntries_getD_mem (oldBuf : List (Option Rec)) (oldMask newMask : Nat) :
    ∀ (cursors : List Nat) (newBuf : List (Option Rec)),
      cursors.Pairwise (fun i j => i &&& newMask ≠ j &&& newMask) →
      (∀ i ∈ cursors, i &&& newMask < newBuf.length) →
      ∀ i ∈ cursors,
        (copyEntries oldBuf oldMask newMask cursors newBuf).getD (i &&& newMask) none
          = oldBuf.getD (i &&& oldMask) none := by
  intro cursors
  induction cursors with
  | nil => intro newBuf _ _ i hi; exact absurd hi (List.not_mem_nil i)
  | cons i rest ih =>
    intro newBuf hpw hlen j hj
    have hne := List.pairwise_cons.mp hpw
    rw [copyEntries]
    rcases List.mem_cons.mp hj with hji | hjr
    · subst hji
      rw [copyEntries_getD_not_mem oldBuf oldMask newMask rest _ (j &&& newMask)
        (fun x hx => (hne.1 x hx).symm)]
      exact getD_set_self newBuf _ _ (hlen j (List.mem_cons_self j rest))
    · exact ih _ hne.2
        (fun x hx => by rw [List.length_set]; exact hlen x (List.mem_cons_of_mem i hx))
        j hjr

/-- Claim C6: a resize attempt is a no-op at the stored-utilization
threshold and at the absolute cap of `2^20` slots; the capacity never grows
past the cap; and when it does resize it doubles the capacity exactly,
leaves both cursors unchanged, and places every in-flight record with
cursor `i` in `[readIndex, writeIndex)` at slot `i & (newCapacity - 1)` of
the new buffer with its old contents — no record is lost or relocated
relative to its cursor. -/
theorem maybeResize_spec_c6 (b : AsyncBuffer) (e : Nat) (hsize : b.size = 2 ^ e)
    (hmask : b.mask = b.size - 1) (hrw : b.readIndex ≤ b.writeIndex)
    (hcap : b.writeIndex - b.readIndex ≤ b.size) :
    (b.size ≤ 2 ^ 20 → (maybeResize b).size ≤ 2 ^ 20)
    ∧ (b.utilization ≤ b.resizeThreshold → maybeResize b = b)
    ∧ (2 ^ 20 < 2 * b.size → maybeResize b = b)
    ∧ (b.resizeThreshold < b.utilization → 2 * b.size ≤ 2 ^ 20 →
        (maybeResize b).size = 2 * b.size
        ∧ (maybeResize b).mask = 2 * b.size - 1
        ∧ (maybeResize b).readIndex = b.readIndex
        ∧ (maybeResize b).writeIndex = b.writeIndex
        ∧ ∀ i, b.readIndex ≤ i → i < b.writeIndex →
            (maybeResize b).buffer.getD (i &&& (2 * b.size - 1)) none
              = b.buffer.getD (i &&& b.mask) none) := by
  have hm20 : (1024 * 1024 : Nat) = 2 ^ 20 := by norm_num
  refine ⟨?_, ?_, ?_, ?_⟩
  · intro hle
    unfold maybeResize
    by_cases hu : b.utilization ≤ b.resizeThreshold
    · rw [if_pos hu]; exact hle
    · rw [if_neg hu]
      by_cases hbig : 1024 * 1024 < b.size * 2
      · rw [if_pos hbig]; exact hle
      · rw [if_neg hbig]
        simp only []
        omega
  · intro hu
    unfold maybeResize
    rw [if_pos hu]
  · intro hbig
    unfold maybeResize
    by_cases hu : b.utilization ≤ b.resizeThreshold
    · rw [if_pos hu]
    · rw [if_neg hu, if_pos (by omega)]
  · intro hu hle
    have hnu : ¬ b.utilization ≤ b.resizeThreshold := by omega
    have hnbig : ¬ 1024 * 1024 < b.size * 2 := by omega
    have hres : maybeResize b
        = { b with
            buffer := copyEntries b.buffer b.mask (b.size * 2 - 1)
              (List.range' b.readIndex (b.writeIndex - b.readIndex))
              (List.replicate (b.size * 2) none)
            size := b.size * 2
            mask := b.size * 2 - 1 } := by
      unfold maybeResize
      rw [if_neg hnu, if_neg hnbig]
    rw [hres]
    have h2 : b.size * 2 = 2 * b.size := by omega
    refine ⟨by simp only []; omega, by simp only []; omega, rfl, rfl, ?_⟩
    intro i hir hiw
    have hi2 : 2 * b.size - 1 = b.size * 2 - 1 := by omega
    rw [hi2]
    have hmem : i ∈ List.range' b.readIndex (b.writeIndex - b.readIndex) := by
      rw [List.mem_range'_1]
      omega
    apply copyEntries_getD_mem b.buffer b.mask (b.size * 2 - 1) _ _ ?_ ?_ i hmem
    · refine (List.pairwise_lt_range' b.readIndex (b.writeIndex - b.readIndex)).imp_of_mem ?_
      intro x y hx hy hxy
      rw [List.mem_range'_1] at hx hy
      have hpow : b.size * 2 = 2 ^ (e + 1) := by rw [hsize]; ring
      rw [hpow]
      exact and_mask_ne hxy (by omega)
    · intro x hx
      rw [List.length_replicate]
      have hpow : b.size * 2 = 2 ^ (e + 1) := by rw [hsize]; ring
      rw [hpow, Nat.and_pow_two_sub_one_eq_mod]
      exact Nat.mod_lt x (by positivity)

/-- Concrete state for the C6 witness: four records in flight in a ring of
capacity 4 (stored utilization 100, above the default threshold 75). -/
def bResize : AsyncBuffer :=
  writeMany (newAsyncBuffer 4 planOk) [[1], [2], [3], [4]]

/-- Witness for C6: the resize doubles capacity 4 to 8, keeps the cursors,
and keeps record `[1]` (cursor 0) at slot 0 of the new buffer. -/
theorem maybeResize_spec_c6_witness :
    (maybeResize bResize).size = 2 * bResize.size
    ∧ (maybeResize bResize).readIndex = bResize.readIndex
    ∧ (maybeResize bResize).writeIndex = bResize.writeIndex
    ∧ (maybeResize bResize).buffer.getD (0 &&& (2 * bResize.size - 1)) none
        = bResize.buffer.getD (0 &&& bResize.mask) none := by
  have h := (maybeResize_spec_c6 bResize 2 (by decide) (by decide) (by decide)
    (by decide)).2.2.2 (by decide) (by decide)
  exact ⟨h.1, h.2.2.1, h.2.2.2.1, h.2.2.2.2 0 (by decide) (by decide)⟩

/-! ### C7: capacity rounding -/

/-- One or-assignment step of the bit smear, on naturals. -/
def smearStep (x k : Nat) : Nat := x ||| (x >>> k)

/-- The five-step bit smear of `roundUpPowerOfTwo` restricted to
non-negative inputs, where Go's arithmetic shift and two's-complement or
coincide with the natural-number operations. -/
def smearNat (m : Nat) : Nat :=
  smearStep (smearStep (smearStep (smearStep (smearStep m 1) 2) 4) 8) 16

/-- Two's-complement or of two non-negative values is the natural or. -/
theorem intLor_ofNat (a c : Nat) : Int.lor (a : Int) (c : Int) = ((a ||| c : Nat) : Int) := rfl

/-- Arithmetic right shift of a non-negative value is the natural shift. -/
theorem intShr_ofNat (a k : Nat) : ((a : Int) >>> k) = ((a >>> k : Nat) : Int) := rfl

/-- On inputs at least 1, `roundUpPowerOfTwo` computes the natural-number
bit smear of `n - 1`, plus one. -/
theorem roundUpPowerOfTwo_cast (m : Nat) (h : 1 ≤ m) :
    roundUpPowerOfTwo (m : Int) = ((smearNat (m - 1) + 1 : Nat) : Int) := by
  have h1 : ((m : Int) - 1) = ((m - 1 : Nat) : Int) := by omega
  unfold roundUpPowerOfTwo smearNat smearStep
  simp only [h1, intShr_ofNat, intLor_ofNat]
  push_cast
  ring

/-- Bit `i` of a value or-ed with its own right shift sees the original
bits at `i` and `i + k`. -/
theorem smearStep_testBit (x k i : Nat) :
    (smearStep x k).testBit i = (x.testBit i || x.testBit (i + k)) := by
  unfold smearStep
  rw [Nat.testBit_lor, Nat.testBit_shiftRight, Nat.add_comm k i]

/-- A value has a bit set in the window `[i, i + w)`. -/
def hasBitIn (m i w : Nat) : Prop := ∃ d, d < w ∧ m.testBit (i + d) = true

/-- One smear step doubles the window of source bits each output bit can
see. -/
theorem smearStep_window {m x w : Nat}
    (hx : ∀ i, x.testBit i = true ↔ hasBitIn m i w) :
    ∀ i, (smearStep x w).testBit i = true ↔ hasBitIn m i (w + w) := by
  intro i
  rw [smearStep_testBit, Bool.or_eq_true]
  constructor
  · rintro (h | h)
    · obtain ⟨d, hd, hbit⟩ := (hx i).1 h
      exact ⟨d, by omega, hbit⟩
    · obtain ⟨d, hd, hbit⟩ := (hx (i + w)).1 h
      refine ⟨w + d, by omega, ?_⟩
      have : i + (w + d) = i + w + d := by omega
      rw [this]
      exact hbit
  · rintro ⟨d, hd, hbit⟩
    by_cases hdw : d < w
    · exact Or.inl ((hx i).2 ⟨d, hdw, hbit⟩)
    · refine Or.inr ((hx (i + w)).2 ⟨d - w, by omega, ?_⟩)
      have : i + w + (d - w) = i + d := by omega
      rw [this]
      exact hbit

/-- After the five smear steps, each output bit sees a 32-bit window of the
input. -/
theorem smearNat_window (m : Nat) :
    ∀ i, (smearNat m).testBit i = true ↔ hasBitIn m i 32 := by
  have h1 : ∀ i, m.testBit i = true ↔ hasBitIn m i 1 := by
    intro i
    constructor
    · intro h
      exact ⟨0, Nat.one_pos, by simpa using h⟩
    · rintro ⟨d, hd, hbit⟩
      have : d = 0 := by omega
      subst this
      simpa using hbit
  have h2 := smearStep_window h1
  have h4 := smearStep_window h2
  have h8 := smearStep_window h4
  have h16 := smearStep_window h8
  have h32 := smearStep_window h16
  exact h32

/-- A value strictly between consecutive powers of two has its top bit at
the lower exponent. -/
theorem testBit_of_bounds {x k : Nat} (h1 : 2 ^ k ≤ x) (h2 : x < 2 ^ (k + 1)) :
    x.testBit k = true := by
  rw [Nat.testBit_to_div_mod]
  have hpos : 0 < 2 ^ k := Nat.pow_pos (by omega)
  have hdiv1 : 1 ≤ x / 2 ^ k := (Nat.le_div_iff_mul_le hpos).2 (by omega)
  have hdiv2 : x / 2 ^ k < 2 := (Nat.div_lt_iff_lt_mul hpos).2 (by
    have : 2 ^ (k + 1) = 2 ^ k * 2 := by ring
    omega)
  have : x / 2 ^ k = 1 := by omega
  simp [this]

/-- For `0 < m < 2^32` the smear fills every bit below the top bit: the
result is `2^(log2 m + 1) - 1`. -/
theorem smearNat_eq (m : Nat) (h0 : 0 < m) (h32 : m < 2 ^ 32) :
    smearNat m = 2 ^ (Nat.log2 m + 1) - 1 := by
  have hle : 2 ^ Nat.log2 m ≤ m := Nat.log2_self_le (by omega)
  have hlt : m < 2 ^ (Nat.log2 m + 1) := Nat.lt_log2_self
  have hh32 : Nat.log2 m < 32 := by
    by_contra hc
    push_neg at hc
    have : (2 : Nat) ^ 32 ≤ 2 ^ Nat.log2 m := Nat.pow_le_pow_right (by omega) hc
    omega
  have hbit_top : m.testBit (Nat.log2 m) = true := testBit_of_bounds hle hlt
  have hbit_high : ∀ j, Nat.log2 m < j → m.testBit j = false := by
    intro j hj
    exact Nat.testBit_lt_two_pow
      (Nat.lt_of_lt_of_le hlt (Nat.pow_le_pow_right (by omega) (by omega)))
  apply Nat.eq_of_testBit_eq
  intro i
  rw [Nat.testBit_two_pow_sub_one]
  by_cases hi : i < Nat.log2 m + 1
  · have hset : (smearNat m).testBit i = true := by
      refine (smearNat_window m i).2 ⟨Nat.log2 m - i, by omega, ?_⟩
      have : i + (Nat.log2 m - i) = Nat.log2 m := by omega
      rw [this]
      exact hbit_top
    rw [hset]
    simp [hi]
  · have hclear : (smearNat m).testBit i = false := by
      cases hc : (smearNat m).testBit i with
      | false => rfl
      | true =>
        obtain ⟨d, _, hbit⟩ := (smearNat_window m i).1 hc
        rw [hbit_high (i + d) (by omega)] at hbit
        exact absurd hbit (by simp)
    rw [hclear]
    simp [hi]

/-- On positive inputs up to `2^32` the rounding function produces a power
of two (the smear only reaches 31 bits below the top set bit, so beyond
`2^32` it stops working — see the counterexample). -/
theorem roundUpPowerOfTwo_pow {n : Int} (h1 : 1 ≤ n) (h2 : n ≤ 2 ^ 32) :
    ∃ k : Nat, roundUpPowerOfTwo n = (2 : Int) ^ k := by
  lift n to ℕ using (by omega : (0 : Int) ≤ n)
  have hm1 : 1 ≤ n := by exact_mod_cast h1
  have hm2 : n ≤ 2 ^ 32 := by exact_mod_cast h2
  rw [roundUpPowerOfTwo_cast n hm1]
  by_cases hone : n = 1
  · subst hone
    refine ⟨0, ?_⟩
    have h0 : smearNat 0 = 0 := rfl
    norm_num [h0]
  · have h0 : 0 < n - 1 := by omega
    have h32 : n - 1 < 2 ^ 32 := by omega
    rw [smearNat_eq (n - 1) h0 h32]
    refine ⟨Nat.log2 (n - 1) + 1, ?_⟩
    have hp : 1 ≤ 2 ^ (Nat.log2 (n - 1) + 1) := Nat.one_le_two_pow
    have heq : 2 ^ (Nat.log2 (n - 1) + 1) - 1 + 1 = 2 ^ (Nat.log2 (n - 1) + 1) := by omega
    rw [heq]
    push_cast
    ring

/-- Two's-complement and of two non-negative values is the natural and. -/
theorem intLand_ofNat (a c : Nat) : Int.land (a : Int) (c : Int) = ((a &&& c : Nat) : Int) := rfl

/-- A positive value whose and with its predecessor is zero is a power of
two (this is the `size&(size-1)` check of `newAsyncBuffer`). -/
theorem pow_of_land_pred_zero {m : Nat} (h1 : 1 ≤ m) (h : m &&& (m - 1) = 0) :
    ∃ k, m = 2 ^ k := by
  refine ⟨Nat.log2 m, ?_⟩
  have hle : 2 ^ Nat.log2 m ≤ m := Nat.log2_self_le (by omega)
  have hlt : m < 2 ^ (Nat.log2 m + 1) := Nat.lt_log2_self
  by_contra hne
  have hgt : 2 ^ Nat.log2 m < m := by omega
  have hb1 : m.testBit (Nat.log2 m) = true := testBit_of_bounds hle hlt
  have hb2 : (m - 1).testBit (Nat.log2 m) = true := testBit_of_bounds (by omega) (by omega)
  have hand := Nat.testBit_and m (m - 1) (Nat.log2 m)
  rw [h, hb1, hb2, Nat.zero_testBit] at hand
  exact absurd hand (by simp)

/-- Counterexample for C7 as stated: `roundUpPowerOfTwo 0 = 0`, not `1` and
not a power of two (the `n--; n++` trick collapses on zero), so a pipeline
constructed with initial capacity 0 gets capacity 0; and beyond 32 bits the
smear is too short: `roundUpPowerOfTwo (2^32 + 1) = 2^33 - 1`, which is not
a power of two either. -/
theorem roundUp_zero_c7_counterexample :
    roundUpPowerOfTwo 0 = 0
    ∧ roundUpPowerOfTwo 0 ≠ 1
    ∧ (¬ ∃ k : Nat, roundUpPowerOfTwo 0 = (2 : Int) ^ k)
    ∧ (newAsyncBuffer 0 planOk).size = 0
    ∧ roundUpPowerOfTwo (2 ^ 32 + 1) = 2 ^ 33 - 1
    ∧ (¬ ∃ k : Nat, roundUpPowerOfTwo (2 ^ 32 + 1) = (2 : Int) ^ k) := by
  refine ⟨by decide, by decide, ?_, by decide, by decide, ?_⟩
  · rintro ⟨k, hk⟩
    rw [show roundUpPowerOfTwo 0 = 0 from by decide] at hk
    have : (0 : Int) < 2 ^ k := pow_pos (by omega) k
    omega
  · rintro ⟨k, hk⟩
    rw [show roundUpPowerOfTwo (2 ^ 32 + 1) = 2 ^ 33 - 1 from by decide] at hk
    have hlow : (2 : Int) ^ 32 < 2 ^ k := by rw [← hk]; decide
    have hhigh : (2 : Int) ^ k < 2 ^ 33 := by rw [← hk]; decide
    have h32 : 32 < k := (pow_lt_pow_iff_right₀ (by omega : (1 : Int) < 2)).1 hlow
    have h33 : k < 33 := (pow_lt_pow_iff_right₀ (by omega : (1 : Int) < 2)).1 hhigh
    omega

/-- Claim C7 as amended: for every initial capacity from 1 to `2^32` the
rounding function returns a power of two and the constructed pipeline has a
power-of-two capacity; `roundUp(5) = 8` and `roundUp(1024) = 1024` hold as
stated.  (At 0 the function returns 0, and beyond `2^32` the smear is too
short — see the counterexample.) -/
theorem roundUp_power_of_two_c7 (n : Int) (plan : Nat → Bool) (h1 : 1 ≤ n) (h2 : n ≤ 2 ^ 32) :
    (∃ k : Nat, roundUpPowerOfTwo n = (2 : Int) ^ k)
    ∧ (∃ k : Nat, (newAsyncBuffer n plan).size = 2 ^ k)
    ∧ roundUpPowerOfTwo 5 = 8 ∧ roundUpPowerOfTwo 1024 = 1024 := by
  refine ⟨roundUpPowerOfTwo_pow h1 h2, ?_, by decide, by decide⟩
  have hsz : (newAsyncBuffer n plan).size
      = (if n ≤ 0 ∨ Int.land n (n - 1) ≠ 0 then roundUpPowerOfTwo n else n).toNat := rfl
  by_cases hcond : n ≤ 0 ∨ Int.land n (n - 1) ≠ 0
  · obtain ⟨k, hk⟩ := roundUpPowerOfTwo_pow h1 h2
    refine ⟨k, ?_⟩
    rw [hsz, if_pos hcond, hk]
    rw [show (2 : Int) ^ k = ((2 ^ k : Nat) : Int) from by push_cast; ring]
    exact Int.toNat_ofNat _
  · rw [hsz, if_neg hcond]
    push_neg at hcond
    obtain ⟨hpos, hland⟩ := hcond
    lift n to ℕ using (by omega : (0 : Int) ≤ n)
    have hm1 : 1 ≤ n := by exact_mod_cast h1
    have hc : ((n : Int) - 1) = ((n - 1 : Nat) : Int) := by omega
    rw [hc, intLand_ofNat] at hland
    have hnat : n &&& (n - 1) = 0 := by exact_mod_cast hland
    obtain ⟨k, hk⟩ := pow_of_land_pred_zero hm1 hnat
    refine ⟨k, ?_⟩
    rw [Int.toNat_ofNat]
    exact hk

/-- Witness for the amended C7 at the spec's own example input 5. -/
theorem roundUp_power_of_two_c7_witness :
    (∃ k : Nat, roundUpPowerOfTwo 5 = (2 : Int) ^ k)
    ∧ (∃ k : Nat, (newAsyncBuffer 5 planOk).size = 2 ^ k) := by
  have h := roundUp_power_of_two_c7 5 planOk (by decide) (by decide)
  exact ⟨h.1, h.2.1⟩

end Onelog
